import Mathlib

/-
Shallow embedding of the Flipper message runtime (libflipper).

Sources embedded here:
  * src/runtime/src/fmr.c            (fmr_build, fmr_create_call, fmr_perform)
  * src/kernel/arch/avr8/fmr.S       (the AVR call trampoline fmr_call, and the
                                      concatenated host library: lf_invoke, lf_bind,
                                      lf_push, lf_pull, lf_transfer, lf_get_result)
  * src/platforms/atsam4s16b/src/system.c (uart0_isr reply construction)

Parts of the repository referenced by these files live in headers that are not
part of the sources (libflipper.h, fmr.h, error.h).  Where such a missing part
decides behavior it is modelled from the spec and marked so in its doc comment.
In particular the assertion helper is modelled with its standard meaning,
matching its uses in fmr_build and in the test driver: lf_assert(cond, label,
err, msg) raises err into the thread-local error slot and jumps to the failure
label when cond is FALSE, and does nothing when cond is true.
-/

set_option maxRecDepth 4096

namespace Flipper

/-- Error codes of the runtime (E_OK, E_MALLOC, ...).  The numeric values live
in a header that is not part of the sources, so the errors are modelled as an
enumeration in the order the spec lists them. -/
inductive Err where
  | eOK | eMalloc | eNull | eOverflow | eNoDevice | eEndpoint
  | eChecksum | eSubclass | eType | eModule | eName | eFmr | eTest
deriving DecidableEq, Repr

/-- One argument cell as built by fmr_build: struct _lf_arg, holding a 32-bit
fmr_arg value and an fmr_type. -/
structure LfArg where
  value : Nat
  type : Nat
deriving DecidableEq, Repr

/-- Largest type code fmr_build accepts: fmr_ptr_t.  Its value, 6, is taken
from the LfType enumeration in the sources (lf_ptr = 6), matching the spec
type table. -/
def fmr_ptr_t : Nat := 6

/-- Modelled from the spec: FMR_MAX_ARGC is defined in a header missing from
the sources; the spec states the source uses 16 (sixteen 4-bit tags filling a
64-bit type word). -/
def FMR_MAX_ARGC : Nat := 16

/-- One iteration of the fmr_build loop: the type is extracted from the bits
above 32 of the 64-bit variadic cell and masked to 3 bits, exactly as
  fmr_type type = (fmr_type)((value >> (sizeof(fmr_arg) * 8)) & 0x7);
types above fmr_ptr_t are rejected with E_TYPE, and an accepted argument
stores the cell truncated to 32 bits together with the masked type. -/
def fmr_build_arg (v : Nat) : Except Err LfArg :=
  let t := v / 2 ^ 32 % 8
  if t ≤ fmr_ptr_t then .ok ⟨v % 2 ^ 32, t⟩ else .error .eType

/-- The while (argc --) loop of fmr_build: arguments are appended in variadic
order; a failing cell releases the whole list (all-or-nothing). -/
def fmr_build_list : List Nat → Except Err (List LfArg)
  | [] => .ok []
  | v :: rest =>
    match fmr_build_arg v with
    | .error e => .error e
    | .ok a =>
      match fmr_build_list rest with
      | .error e => .error e
      | .ok l => .ok (a :: l)

/-- The function fmr_build: the up-front arity assertion
  lf_assert(argc < FMR_MAX_ARGC, failure, E_OVERFLOW, ...)
fails with E_OVERFLOW unless argc is strictly below FMR_MAX_ARGC, then the
variadic cells are turned into the argument list one by one. -/
def fmr_build (argv : List Nat) : Except Err (List LfArg) :=
  if argv.length < FMR_MAX_ARGC then fmr_build_list argv
  else .error .eOverflow

/-- C4, counterexample: the claim says tag 5 is rejected with the illegal-type
error and that signed tags are recorded unchanged.  On the code, a cell with
tag 5 is accepted (5 is at most fmr_ptr_t after the 3-bit mask) and a cell
with tag 9 (i16) is collapsed to tag 1 (u16) by the mask. -/
theorem fmr_build_tag5_accepted :
    fmr_build [5 * 2 ^ 32] = .ok [⟨0, 5⟩] ∧
    fmr_build [9 * 2 ^ 32 + 3] = .ok [⟨3, 1⟩] ∧
    (Except.ok [(⟨0, 5⟩ : LfArg)] : Except Err (List LfArg)) ≠ .error .eType := by
  refine ⟨rfl, rfl, ?_⟩
  intro h
  exact Except.noConfusion h

/-- C4, amended: an argument cell carrying 4-bit tag T and 32-bit value x is
accepted if and only if T masked to its low 3 bits is at most fmr_ptr_t = 6
(so tag 5 is accepted, tags 7 and 15 are rejected with E_TYPE), and an
accepted argument records the masked tag, collapsing signed tags onto their
unsigned counterparts. -/
theorem fmr_build_tag_masked (T x : Nat) (_hT : T < 16) (hx : x < 2 ^ 32) :
    fmr_build [T * 2 ^ 32 + x]
      = if T % 8 ≤ fmr_ptr_t then .ok [⟨x, T % 8⟩] else .error .eType := by
  have hdiv : (T * 2 ^ 32 + x) / 2 ^ 32 = T := by
    rw [Nat.mul_comm T (2 ^ 32), Nat.mul_add_div (by norm_num),
      Nat.div_eq_of_lt hx, Nat.add_zero]
  have hmod : (T * 2 ^ 32 + x) % 2 ^ 32 = x := by
    rw [Nat.mul_comm T (2 ^ 32), Nat.mul_add_mod]
    exact Nat.mod_eq_of_lt hx
  unfold fmr_build fmr_build_list fmr_build_arg
  simp only [List.length_cons, List.length_nil]
  rw [if_pos (by unfold FMR_MAX_ARGC; omega)]
  simp only [hdiv, hmod]
  by_cases h : T % 8 ≤ fmr_ptr_t
  · rw [if_pos h, if_pos h]
    rfl
  · rw [if_neg h, if_neg h]

/-- C4, witness: the amended theorem applied to the signed tag 9 with value 7:
the cell is accepted and recorded with the collapsed tag 1. -/
theorem fmr_build_tag_masked_witness :
    fmr_build [9 * 2 ^ 32 + 7] = .ok [⟨7, 1⟩] := by
  have h := fmr_build_tag_masked 9 7 (by norm_num) (by norm_num)
  simpa using h

/-- C5, counterexample: the claim says building from argc = FMR_MAX_ARGC
valid-tagged arguments succeeds; on the code the up-front assertion uses a
strict bound, so sixteen u8 arguments already fail with E_OVERFLOW. -/
theorem fmr_build_max_argc_overflow :
    fmr_build (List.replicate 16 0) = .error .eOverflow := rfl

/-- Helper: a list of valid-tagged cells is converted without failure and
preserves its length. -/
theorem fmr_build_list_ok (argv : List Nat)
    (hvalid : ∀ v ∈ argv, v / 2 ^ 32 % 8 ≤ fmr_ptr_t) :
    ∃ l, fmr_build_list argv = .ok l ∧ l.length = argv.length := by
  induction argv with
  | nil => exact ⟨[], rfl, rfl⟩
  | cons v rest ih =>
    have hv : v / 2 ^ 32 % 8 ≤ fmr_ptr_t := hvalid v (by simp)
    obtain ⟨l, hl, hlen⟩ := ih (fun w hw => hvalid w (by simp [hw]))
    refine ⟨⟨v % 2 ^ 32, v / 2 ^ 32 % 8⟩ :: l, ?_, by simp [hlen]⟩
    unfold fmr_build_list fmr_build_arg
    simp only [if_pos hv, hl]

/-- C5, amended: a list of argc valid-tagged arguments builds successfully,
with resulting length argc, exactly when argc is strictly below FMR_MAX_ARGC;
for argc at or above FMR_MAX_ARGC (in particular argc = FMR_MAX_ARGC = 16)
fmr_build fails with E_OVERFLOW before appending anything.  There is no
per-append arity check in the source; the bound is enforced once, up front. -/
theorem fmr_build_arity (argv : List Nat)
    (hvalid : ∀ v ∈ argv, v / 2 ^ 32 % 8 ≤ fmr_ptr_t) :
    (argv.length < FMR_MAX_ARGC →
      ∃ l, fmr_build argv = .ok l ∧ l.length = argv.length)
    ∧ (FMR_MAX_ARGC ≤ argv.length → fmr_build argv = .error .eOverflow) := by
  constructor
  · intro hlt
    obtain ⟨l, hl, hlen⟩ := fmr_build_list_ok argv hvalid
    exact ⟨l, by unfold fmr_build; rw [if_pos hlt]; exact hl, hlen⟩
  · intro hge
    unfold fmr_build
    rw [if_neg (by omega)]

/-- C5, witness: the amended theorem applied to two u8 cells. -/
theorem fmr_build_arity_witness :
    ∃ l, fmr_build [10, 20] = .ok l ∧ l.length = 2 := by
  exact (fmr_build_arity [10, 20] (by decide)).1 (by decide)

/-- Modelled from the spec: the wire width of each type code (fmr_sizeof lives
in a header missing from the sources; the spec type table gives the widths).
ptrSize is the device pointer width: 2 on 16-bit devices, 4 on 32-bit. -/
def fmr_sizeof (ptrSize : Nat) : Nat → Nat
  | 0 => 1
  | 1 => 2
  | 2 => 0
  | 3 => 4
  | 4 => ptrSize
  | 6 => ptrSize
  | 7 => 8
  | 8 => 1
  | 9 => 2
  | 11 => 4
  | 15 => 8
  | _ => 0

/-- Little-endian bytes: the n bytes that memcpy takes from a value cell. -/
def leBytes (v : Nat) : Nat → List Nat
  | 0 => []
  | n + 1 => v % 256 :: leBytes (v / 256) n

/-- The packed type word built by the fmr_create_call loop:
  call->types |= (arg->type & 0xF) << (i * 4);
starting from the zero-initialised field of the packet. -/
def packTypes : List LfArg → Nat → Nat
  | [], _ => 0
  | a :: rest, i => a.type % 16 * 2 ^ (4 * i) ||| packTypes rest (i + 1)

/-- The parameter region built by the fmr_create_call loop: each argument
contributes its narrowed little-endian bytes, consecutively in list order. -/
def packParams (ptrSize : Nat) : List LfArg → List Nat
  | [] => []
  | a :: rest => leBytes a.value (fmr_sizeof ptrSize a.type) ++ packParams ptrSize rest

/-- Total wire size of the arguments, accumulated into header->length. -/
def paramsSize (ptrSize : Nat) : List LfArg → Nat
  | [] => 0
  | a :: rest => fmr_sizeof ptrSize a.type + paramsSize ptrSize rest

/-- The struct _fmr_invocation body.  Modelled from the spec (the struct is
declared in a missing header): index, function, ret, argc are bytes, types is
a 64-bit packed type word, parameters the trailing byte region. -/
structure FmrInvocation where
  index : Nat
  function : Nat
  ret : Nat
  argc : Nat
  types : Nat
  parameters : List Nat
deriving DecidableEq, Repr

/-- The function fmr_create_call: stores module, function, ret and argc,
then walks the argument list in order, packing each 4-bit type tag at nibble
position i of the types word and appending the narrowed little-endian bytes
of each value to the parameter region, incrementing header->length by each
size.  Returns the invocation body and the updated header length. -/
def fmr_create_call (ptrSize module function ret : Nat) (args : List LfArg)
    (hlen : Nat) : FmrInvocation × Nat :=
  (⟨module, function, ret, args.length, packTypes args 0, packParams ptrSize args⟩,
    hlen + paramsSize ptrSize args)

/-- Helper: a value strictly below a power of two, joined by bitwise or with a
multiple of that power, is simply added to it. -/
theorem lor_small_big {s c k : Nat} (hs : s < 2 ^ k) :
    s ||| 2 ^ k * c = s + 2 ^ k * c := by
  rw [Nat.lor_comm, ← Nat.mul_add_lt_is_or hs c, Nat.add_comm]

/-- Sum form of the packed type word, used to reason about the or-accumulation. -/
def sumTypes : List LfArg → Nat → Nat
  | [], _ => 0
  | a :: rest, i => a.type % 16 * 2 ^ (4 * i) + sumTypes rest (i + 1)

theorem sumTypes_dvd (args : List LfArg) : ∀ i, 2 ^ (4 * i) ∣ sumTypes args i := by
  induction args with
  | nil => intro i; exact dvd_zero _
  | cons a rest ih =>
    intro i
    refine dvd_add (dvd_mul_left _ _) ?_
    exact dvd_trans (pow_dvd_pow 2 (by omega)) (ih (i + 1))

theorem packTypes_small (a : LfArg) (i : Nat) :
    a.type % 16 * 2 ^ (4 * i) < 2 ^ (4 * (i + 1)) := by
  have h16 : a.type % 16 < 16 := Nat.mod_lt _ (by norm_num)
  calc a.type % 16 * 2 ^ (4 * i) < 16 * 2 ^ (4 * i) :=
        mul_lt_mul_of_pos_right h16 (by positivity)
    _ = 2 ^ (4 * (i + 1)) := by
        rw [show 4 * (i + 1) = 4 + 4 * i by ring, pow_add]; norm_num

theorem packTypes_eq_sumTypes (args : List LfArg) : ∀ i, packTypes args i = sumTypes args i := by
  induction args with
  | nil => intro i; rfl
  | cons a rest ih =>
    intro i
    obtain ⟨c, hc⟩ := sumTypes_dvd rest (i + 1)
    unfold packTypes sumTypes
    rw [ih (i + 1), hc, lor_small_big (packTypes_small a i)]

theorem sumTypes_nibble (args : List LfArg) : ∀ i j, (h : j < args.length) →
    sumTypes args i / 2 ^ (4 * (i + j)) % 16 = (args.get ⟨j, h⟩).type % 16 := by
  induction args with
  | nil => intro i j h; simp at h
  | cons a rest ih =>
    intro i j h
    obtain ⟨c, hc⟩ := sumTypes_dvd rest (i + 1)
    match j with
    | 0 =>
      have hfac : a.type % 16 * 2 ^ (4 * i) + sumTypes rest (i + 1)
          = 2 ^ (4 * i) * (a.type % 16 + 16 * c) := by
        rw [hc, show 4 * (i + 1) = 4 * i + 4 by ring, pow_add]
        ring
      show (a.type % 16 * 2 ^ (4 * i) + sumTypes rest (i + 1)) / 2 ^ (4 * (i + 0)) % 16
          = a.type % 16
      rw [hfac]
      simp only [Nat.add_zero]
      rw [Nat.mul_div_cancel_left _ (Nat.two_pow_pos _),
        Nat.add_mul_mod_self_left, Nat.mod_mod_of_dvd _ (dvd_refl 16)]
    | j + 1 =>
      have hj : j < rest.length := by
        simp only [List.length_cons] at h; omega
      have hA : (0:Nat) < 2 ^ (4 * (i + 1)) := Nat.two_pow_pos _
      have hEsplit : (2:Nat) ^ (4 * (i + (j + 1))) = 2 ^ (4 * (i + 1)) * 2 ^ (4 * j) := by
        rw [← pow_add]; ring_nf
      have hdropA : (a.type % 16 * 2 ^ (4 * i) + sumTypes rest (i + 1)) / 2 ^ (4 * (i + 1))
          = c := by
        rw [hc, Nat.add_mul_div_left _ _ hA, Nat.div_eq_of_lt (packTypes_small a i),
          Nat.zero_add]
      have hS : sumTypes rest (i + 1) / 2 ^ (4 * (i + 1)) = c := by
        rw [hc, Nat.mul_div_cancel_left _ hA]
      show (a.type % 16 * 2 ^ (4 * i) + sumTypes rest (i + 1)) / 2 ^ (4 * (i + (j + 1))) % 16
          = (rest.get ⟨j, hj⟩).type % 16
      rw [hEsplit, ← Nat.div_div_eq_div_mul, hdropA]
      have := ih (i + 1) j hj
      rw [show 4 * (i + 1 + j) = 4 * (i + 1) + 4 * j by ring, pow_add,
        ← Nat.div_div_eq_div_mul, hS] at this
      exact this

theorem leBytes_length (n : Nat) : ∀ v, (leBytes v n).length = n := by
  induction n with
  | zero => intro v; rfl
  | succ n ih => intro v; simp [leBytes, ih]

theorem packParams_get (ptrSize : Nat) (args : List LfArg) :
    ∀ i, (h : i < args.length) →
    ((packParams ptrSize args).drop (paramsSize ptrSize (args.take i))).take
        (fmr_sizeof ptrSize (args.get ⟨i, h⟩).type)
      = leBytes (args.get ⟨i, h⟩).value (fmr_sizeof ptrSize (args.get ⟨i, h⟩).type) := by
  induction args with
  | nil => intro i h; simp at h
  | cons a rest ih =>
    intro i h
    match i with
    | 0 =>
      show (packParams ptrSize (a :: rest)).take (fmr_sizeof ptrSize a.type)
          = leBytes a.value (fmr_sizeof ptrSize a.type)
      unfold packParams
      exact List.take_left' (leBytes_length _ _)
    | i + 1 =>
      have hi : i < rest.length := by
        simp only [List.length_cons] at h; omega
      show ((packParams ptrSize (a :: rest)).drop
            (paramsSize ptrSize (a :: rest.take i))).take _ = _
      unfold packParams paramsSize
      rw [← List.drop_drop, List.drop_left' (leBytes_length _ _)]
      exact ih i hi

/-- C7: fmr_create_call records argc, packs the i-th 4-bit tag at bit 4*i of
the types word (little nibble is argument 0), and lays the arguments out in
the parameter region consecutively in list order, the i-th starting at the
sum of the wire sizes of the arguments before it; in particular three u8
arguments 10, 20, 30 give argc = 3, types = 0, parameters = 0x0A 0x14 0x1E. -/
theorem fmr_create_call_layout (ptrSize mdl f ret hlen : Nat) (args : List LfArg)
    (hT : ∀ a ∈ args, a.type < 16) :
    (fmr_create_call ptrSize mdl f ret args hlen).1.argc = args.length
    ∧ (∀ i, (h : i < args.length) →
        (fmr_create_call ptrSize mdl f ret args hlen).1.types / 2 ^ (4 * i) % 16
          = (args.get ⟨i, h⟩).type)
    ∧ (∀ i, (h : i < args.length) →
        (((fmr_create_call ptrSize mdl f ret args hlen).1.parameters.drop
            (paramsSize ptrSize (args.take i))).take
              (fmr_sizeof ptrSize (args.get ⟨i, h⟩).type))
          = leBytes (args.get ⟨i, h⟩).value (fmr_sizeof ptrSize (args.get ⟨i, h⟩).type))
    ∧ fmr_create_call 4 mdl f ret [⟨10, 0⟩, ⟨20, 0⟩, ⟨30, 0⟩] hlen
        = (⟨mdl, f, ret, 3, 0, [10, 20, 30]⟩, hlen + 3) := by
  refine ⟨rfl, ?_, ?_, rfl⟩
  · intro i h
    show packTypes args 0 / 2 ^ (4 * i) % 16 = (args.get ⟨i, h⟩).type
    rw [packTypes_eq_sumTypes]
    have := sumTypes_nibble args 0 i h
    rw [Nat.zero_add] at this
    rw [this, Nat.mod_eq_of_lt (hT _ (args.get_mem _ _))]
  · intro i h
    exact packParams_get ptrSize args i h

/-- C7, witness: the layout theorem applied to the RGB example, surfacing its
concrete conjunct. -/
theorem fmr_create_call_layout_witness :
    fmr_create_call 4 1 0 2 [⟨10, 0⟩, ⟨20, 0⟩, ⟨30, 0⟩] 16
      = (⟨1, 0, 2, 3, 0, [10, 20, 30]⟩, 19) := by
  exact (fmr_create_call_layout 4 1 0 2 16 [⟨10, 0⟩, ⟨20, 0⟩, ⟨30, 0⟩]
    (by decide)).2.2.2

/-- The AVR return-register window r18 ... r25 after the icall in fmr_call
(avr-gcc ABI: r24 holds an 8-bit return, r25:r24 a 16-bit return, r25:r22 a
32-bit return, r25:r18 a 64-bit return; r18 is the least significant byte of
the 64-bit lf_return_t). -/
structure Regs where
  r18 : Nat
  r19 : Nat
  r20 : Nat
  r21 : Nat
  r22 : Nat
  r23 : Nat
  r24 : Nat
  r25 : Nat
deriving DecidableEq, Repr

/-- The 64-bit value encoded little-endian in the register window. -/
def Regs.val (r : Regs) : Nat :=
  r.r18 + r.r19 * 2 ^ 8 + r.r20 * 2 ^ 16 + r.r21 * 2 ^ 24 +
    r.r22 * 2 ^ 32 + r.r23 * 2 ^ 40 + r.r24 * 2 ^ 48 + r.r25 * 2 ^ 56

/-- The AVR com instruction: the one-complement of a byte register. -/
def com (b : Nat) : Nat := 255 - b % 256

/-- Label _ret_16_begin of fmr.S: move r25:r24 down to r19:r18, clear the six
upper registers, then attempt sign extension: sbrs r16, 4 skips the jump to
_done only when bit 4 of r16 is set, and sbrs r19, 7 only complements the six
upper registers when the high bit of the 16-bit value is also set. -/
def ret16core (r16 : Nat) (r : Regs) : Regs :=
  let s : Regs := ⟨r.r24, r.r25, 0, 0, 0, 0, 0, 0⟩
  if r16.testBit 4 && s.r19.testBit 7 then
    ⟨s.r18, s.r19, com s.r20, com s.r21, com s.r22, com s.r23, com s.r24, com s.r25⟩
  else s

/-- The return normalization of fmr_call (fmr.S, after the icall): the return
tag is masked to its low 3 bits by andi r16, 0x7, then dispatched through the
cpi chain.  Each width class moves the raw return bytes down and clears the
others (except that the 32-bit path never clears r22); each sign-extension
sequence is guarded by sbrs r16, 4, which tests bit 4 of the masked tag, and
the _ret_int path only executes sbr r16, 4, which ors the MASK 4 (bit 2) into
r16.  Unknown low-3-bit tags (5) and the 64-bit load failure path set every
register to 0xFF (the sentinel). -/
def fmr_call_ret (ret : Nat) (r : Regs) : Regs :=
  let r16 := ret % 8
  if r16 = 0 then
    let s : Regs := ⟨r.r24, 0, 0, 0, 0, 0, 0, 0⟩
    if r16.testBit 4 && s.r18.testBit 7 then
      ⟨s.r18, com s.r19, com s.r20, com s.r21, com s.r22, com s.r23, com s.r24, com s.r25⟩
    else s
  else if r16 = 1 then ret16core r16 r
  else if r16 = 2 then ⟨0, 0, 0, 0, 0, 0, 0, 0⟩
  else if r16 = 3 then
    let s : Regs := ⟨r.r22, r.r23, r.r24, r.r25, r.r22, 0, 0, 0⟩
    if r16.testBit 4 && s.r21.testBit 7 then
      ⟨s.r18, s.r19, s.r20, s.r21, com s.r22, com s.r23, com s.r24, com s.r25⟩
    else s
  else if r16 = 4 then ret16core (r16 ||| 4) r
  else if r16 = 6 then ret16core r16 r
  else if r16 = 7 then r
  else ⟨255, 255, 255, 255, 255, 255, 255, 255⟩

/-- C3: a function declared to return signed i16 (tag 9) whose raw return
register pair r25:r24 is 0xFFFF is NOT sign-extended by the trampoline: tag 9
is masked to 1 by andi r16, 0x7 and the sign-extension branch is dead (bit 4
of a 3-bit-masked tag is never set), so the normalized u64 is 0x000000000000FFFF,
not 0xFFFFFFFFFFFFFFFF as the claim and spec property P5 require. -/
theorem fmr_call_i16_zero_extends :
    (fmr_call_ret 9 ⟨0x21, 0x43, 0x65, 0x87, 0xA9, 0xCB, 0xFF, 0xFF⟩).val = 0xFFFF ∧
    (0xFFFF : Nat) ≠ 0xFFFFFFFFFFFFFFFF := by
  exact ⟨rfl, by decide⟩

/-- Modelled from the spec: FMR_MAGIC_NUMBER is defined in a missing header;
the spec gives the constant 0xFE1A. -/
def FMR_MAGIC_NUMBER : Nat := 0xFE1A

/-- The struct _fmr_header fields consulted by fmr_perform.  The class field
is renamed pclass (class is a Lean keyword).  The packet class codes are
those of the spec table: 0 configuration, 1 standard invocation, 2 user
invocation, 3 ram-load, 4 send, 5 push, 6 receive, 7 pull, 8 event. -/
structure FmrHeader where
  magic : Nat
  checksum : Nat
  length : Nat
  pclass : Nat
deriving DecidableEq, Repr

/-- The struct _fmr_result reply: a 64-bit value and the error code. -/
structure FmrResult where
  value : Nat
  error : Err
deriving DecidableEq, Repr

/-- Which subclass handler fmr_perform dispatched. -/
inductive Handler where
  | hexec | huser | hpush | hpull
deriving DecidableEq, Repr

/-- The externally visible outcome of one subclass handler: the value it
returns and the error it raises into the thread-local slot, if any
(fmr_execute, fmr_push and fmr_pull live partly outside fmr.c, so their
outcomes are parameters of the model). -/
structure HandlerEffect where
  value : Nat
  raised : Option Err
deriving DecidableEq, Repr

/-- The handler outcomes available to one fmr_perform run.  The user
invocation handler fmr_perform_user_invocation prints a message and returns
lf_error without touching the result or the error slot. -/
structure DeviceEnv where
  execEff : HandlerEffect
  pushEff : HandlerEffect
  pullEff : HandlerEffect
deriving DecidableEq, Repr

/-- Updating the thread-local slot with an optionally raised error
(lf_error_raise overwrites the slot; nothing raised leaves it latched). -/
def raiseOpt (slot : Err) : Option Err → Err
  | none => slot
  | some e => e

/-- The function fmr_perform.  crc stands for the value lf_crc(packet,
packet->header.length) computes over the packet with the checksum field
zeroed (lf_crc is referenced but not defined in the sources, so the computed
value is a parameter).  slot is the thread-local error slot on entry, r0 the
caller-provided result record.  Returns the updated result, the final slot,
the return code (0 for lf_success, -1 for lf_error) and the dispatched
handlers.  Control flow mirrors the source: the two checksum assertions jump
to the failure label raising E_CHECKSUM; the switch dispatches by class; the
default branch executes lf_assert(true, failure, E_SUBCLASS, ...), whose
condition holds, so it never raises and falls through to the success path;
finally result->error is read from the slot. -/
def fmr_perform (env : DeviceEnv) (crc : Nat) (slot : Err) (h : FmrHeader)
    (r0 : FmrResult) : FmrResult × Err × Int × List Handler :=
  if h.magic ≠ FMR_MAGIC_NUMBER then
    let slot := Err.eChecksum
    (⟨r0.value, slot⟩, slot, -1, [])
  else if h.checksum ≠ crc then
    let slot := Err.eChecksum
    (⟨r0.value, slot⟩, slot, -1, [])
  else if h.pclass = 1 then
    let slot := raiseOpt slot env.execEff.raised
    (⟨env.execEff.value, slot⟩, slot, 0, [.hexec])
  else if h.pclass = 2 then
    (⟨r0.value, slot⟩, slot, 0, [.huser])
  else if h.pclass = 3 ∨ h.pclass = 4 ∨ h.pclass = 5 then
    let slot := raiseOpt slot env.pushEff.raised
    (⟨env.pushEff.value, slot⟩, slot, 0, [.hpush])
  else if h.pclass = 6 ∨ h.pclass = 7 then
    let slot := raiseOpt slot env.pullEff.raised
    (⟨env.pullEff.value, slot⟩, slot, 0, [.hpull])
  else if h.pclass = 8 then
    (⟨r0.value, slot⟩, slot, 0, [])
  else
    (⟨r0.value, slot⟩, slot, 0, [])

/-- The reply pushed by uart0_isr: a zero-initialised result record
(struct _fmr_result result = { 0 }) handed to fmr_perform, then pushed back
over uart0. -/
def uart0_isr_reply (env : DeviceEnv) (crc : Nat) (slot : Err) (h : FmrHeader) :
    FmrResult :=
  (fmr_perform env crc slot h ⟨0, .eOK⟩).1

/-- C6: whenever the magic number differs from FMR_MAGIC_NUMBER or the CRC
computed over the packet with the checksum field zeroed differs from the
transmitted checksum, the device reply carries error = E_CHECKSUM and
value = 0, and no subclass handler is dispatched. -/
theorem fmr_perform_checksum_failure (env : DeviceEnv) (crc slot h)
    (hbad : h.magic ≠ FMR_MAGIC_NUMBER ∨ h.checksum ≠ crc) :
    uart0_isr_reply env crc slot h = ⟨0, .eChecksum⟩ ∧
    (fmr_perform env crc slot h ⟨0, .eOK⟩).2.2.2 = [] := by
  unfold uart0_isr_reply fmr_perform
  by_cases hm : h.magic = FMR_MAGIC_NUMBER
  · have hc : h.checksum ≠ crc := by
      rcases hbad with hb | hb
      · exact absurd hm hb
      · exact hb
    rw [if_neg (by simpa using hm), if_pos hc]
    exact ⟨rfl, rfl⟩
  · rw [if_pos hm]
    exact ⟨rfl, rfl⟩

/-- C6, witness: a packet whose magic field was zeroed, against a clean slot. -/
theorem fmr_perform_checksum_failure_witness :
    uart0_isr_reply ⟨⟨7, none⟩, ⟨0, none⟩, ⟨0, none⟩⟩ 0 .eOK ⟨0, 0, 16, 1⟩
      = ⟨0, .eChecksum⟩ := by
  exact (fmr_perform_checksum_failure ⟨⟨7, none⟩, ⟨0, none⟩, ⟨0, none⟩⟩ 0 .eOK
    ⟨0, 0, 16, 1⟩ (by decide)).1

/-- C2: a packet with valid magic and checksum whose class byte (9) is not an
enumerated packet class reaches the switch default branch, where
lf_assert(true, failure, E_SUBCLASS, ...) never fires because its condition
holds; fmr_perform therefore replies with the latched slot value (E_OK on a
clean slot) and returns lf_success, and does NOT report E_SUBCLASS as the
claim and the spec intend (the spec itself flags the branch as an intended
assert(false)). -/
theorem fmr_perform_invalid_class_eval :
    fmr_perform ⟨⟨7, none⟩, ⟨0, none⟩, ⟨0, none⟩⟩ 0x1234 .eOK
        ⟨FMR_MAGIC_NUMBER, 0x1234, 16, 9⟩ ⟨0, .eOK⟩
      = (⟨0, .eOK⟩, .eOK, 0, []) ∧ Err.eOK ≠ Err.eSubclass := by
  exact ⟨rfl, by decide⟩

/-- A host-side transport event, as seen by the device endpoint: the push of
the whole struct _fmr_packet (tagged with its class byte), a raw byte push or
pull of a given length, or the pull of the struct _fmr_result reply. -/
inductive HEvent where
  | pushPacket (pclass : Nat)
  | pushRaw (len : Nat)
  | pullRaw (len : Nat)
  | pullResult
deriving DecidableEq, Repr

/-- Host-side mutable state: the thread-local error slot and the sequence of
endpoint transfers performed so far. -/
structure Host where
  slot : Err
  trace : List HEvent
deriving DecidableEq, Repr

/-- The function lf_error_raise: latches the error into the thread-local slot. -/
def lf_error_raise (st : Host) (e : Err) : Host := { st with slot := e }

/-- The transport behavior for one transaction: the return codes of the
successive endpoint operations, in the order the host issues them
(non-negative means success, §6), and the device reply that a result pull
delivers. -/
structure Transport where
  code1 : Int
  code2 : Int
  code3 : Int
  reply : FmrResult
deriving DecidableEq, Repr

/-- The function lf_transfer: pushes the whole packet through the endpoint;
a negative endpoint code raises E_ENDPOINT and returns lf_error. -/
def lf_transfer (code : Int) (pclass : Nat) (st : Host) : Int × Host :=
  let st := { st with trace := st.trace ++ [.pushPacket pclass] }
  if code < 0 then (-1, lf_error_raise st .eEndpoint) else (0, st)

/-- The function lf_retrieve: pulls a struct _fmr_result from the endpoint;
a negative endpoint code raises E_ENDPOINT and returns lf_error. -/
def lf_retrieve (code : Int) (st : Host) : Int × Host :=
  let st := { st with trace := st.trace ++ [.pullResult] }
  if code < 0 then (-1, lf_error_raise st .eEndpoint) else (0, st)

/-- The function lf_get_result: retrieves the reply and, when the on-device
error is nonzero, raises it into the thread-local slot and returns lf_error. -/
def lf_get_result (code : Int) (reply : FmrResult) (st : Host) : Int × Host :=
  match lf_retrieve code st with
  | (e, st) =>
    if e < 0 then (-1, st)
    else if reply.error ≠ .eOK then (-1, lf_error_raise st reply.error)
    else (0, st)

/-- The device attributes consulted by fmr_ptr: whether the lf_device_32bit
or lf_device_16bit attribute bit is set (the bit constants live in a missing
header, so the two tests are modelled as fields). -/
structure LfDevice where
  is32bit : Bool
  is16bit : Bool
deriving DecidableEq, Repr

/-- The struct _lf_module fields used by the host engine: the recorded name
CRC, the bound index (-1 while unbound), and the dereferenced target device
slot (module->device points at the selected-device cell). -/
structure LfModule where
  identifier : Nat
  index : Int
  device : Option LfDevice
deriving DecidableEq, Repr

/-- Modelled from the spec: the fmr_int16/fmr_int32/fmr_infer macros (missing
header) place the 4-bit type code in the bits above 32 of a 64-bit fmr_va
cell, which fmr_build later decodes. -/
def fmr_va_pack (t v : Nat) : Nat := t % 16 * 2 ^ 32 + v % 2 ^ 32

/-- The function fmr_ptr: encodes a device-space pointer as a 32-bit or
16-bit argument cell depending on the device attributes, raising E_FMR when
neither width bit is set. -/
def fmr_ptr (dev : LfDevice) (p : Nat) (st : Host) : Nat × Host :=
  if dev.is32bit then (fmr_va_pack 3 p, st)
  else if dev.is16bit then (fmr_va_pack 1 p, st)
  else (0, lf_error_raise st .eFmr)

/-- The function lf_invoke (host side): checks the module pointer (E_NULL),
the target device (E_NO_DEVICE) and the bound index ((int8_t)index == -1,
modelled as index mod 256 = 255, E_MODULE); picks the user invocation class
when the FMR_USER_INVOCATION_BIT (bit 7) is set in the index; builds the
invocation body (fmr_create_call, whose bytes no property below inspects and
whose failure path needs a NULL pointer that cannot arise here; this era
passes no explicit ret, modelled as 0, and the header length built from the
missing struct layout as 0); transfers the packet; obtains the result — and
returns result.value, ignoring the return code of lf_get_result. -/
def lf_invoke (m : Option LfModule) (f : Nat) (args : List LfArg)
    (tp : Transport) (st : Host) : Int × Host :=
  match m with
  | none => (-1, lf_error_raise st .eNull)
  | some md =>
    match md.device with
    | none => (-1, lf_error_raise st .eNoDevice)
    | some _ =>
      if md.index % 256 = 255 then (-1, lf_error_raise st .eModule)
      else
        let pclass : Nat := if 128 ≤ md.index % 256 then 2 else 1
        let _call := fmr_create_call 4 (md.index % 256).toNat f 0 args 0
        match lf_transfer tp.code1 pclass st with
        | (e1, st) =>
          if e1 < 0 then (-1, st)
          else
            match lf_get_result tp.code2 tp.reply st with
            | (_, st) => (Int.ofNat tp.reply.value, st)

/-- C1, counterexample: a bound module on an attached device, a transport
that succeeds, and a device reply carrying value 5 and a nonzero error
(E_NULL).  The claim says lf_invoke must return the failure sentinel
(lf_error, -1) instead of the value; the code raises the error into the slot
but still returns the reply value 5. -/
theorem lf_invoke_returns_value_on_error_example :
    lf_invoke (some ⟨0x1234, 4, some ⟨true, false⟩⟩) 0 [] ⟨0, 0, 0, ⟨5, .eNull⟩⟩
        ⟨.eOK, []⟩
      = (5, ⟨.eNull, [.pushPacket 1, .pullResult]⟩) ∧ (5 : Int) ≠ -1 := by
  exact ⟨rfl, by decide⟩

/-- C1, amended: for every invocation whose reply carries a nonzero error,
lf_invoke raises that error into the thread-local slot (inside lf_get_result)
but returns the reply value field unchanged; the lf_error return of
lf_get_result is discarded. -/
theorem lf_invoke_raises_and_returns_value (ident : Nat) (idx : Int)
    (dev : LfDevice) (f : Nat) (args : List LfArg) (tp : Transport) (st : Host)
    (hbound : idx % 256 ≠ 255) (hc1 : 0 ≤ tp.code1) (hc2 : 0 ≤ tp.code2)
    (herr : tp.reply.error ≠ .eOK) :
    lf_invoke (some ⟨ident, idx, some dev⟩) f args tp st
      = (Int.ofNat tp.reply.value,
          ⟨tp.reply.error,
            st.trace ++ [.pushPacket (if 128 ≤ idx % 256 then 2 else 1)]
              ++ [.pullResult]⟩) := by
  unfold lf_invoke lf_transfer lf_get_result lf_retrieve lf_error_raise
  simp [hbound, herr, Int.not_lt.mpr hc1, Int.not_lt.mpr hc2, List.append_assoc]

/-- C1, witness: the amended theorem at a concrete reply {value 9, error
E_CHECKSUM}. -/
theorem lf_invoke_raises_and_returns_value_witness :
    lf_invoke (some ⟨7, 2, some ⟨true, false⟩⟩) 1 [] ⟨0, 0, 0, ⟨9, .eChecksum⟩⟩
        ⟨.eOK, []⟩
      = (9, ⟨.eChecksum, [.pushPacket 1, .pullResult]⟩) := by
  have h := lf_invoke_raises_and_returns_value 7 2 ⟨true, false⟩ 1 []
    ⟨0, 0, 0, ⟨9, .eChecksum⟩⟩ ⟨.eOK, []⟩ (by decide) (by decide) (by decide)
    (by decide)
  simpa using h

/-- Modelled from the spec: FMR_USER_INVOCATION_BIT (missing header) is the
high bit of the one-byte module index. -/
def FMR_USER_INVOCATION_BIT : Nat := 0x80

/-- The function lf_bind: identifier is the lf_crc of the module name
including the NUL terminator (lf_crc is not in the sources, so the computed
CRC is a parameter); fld is the device loader-table lookup fld_index, none
standing for its -1 result (note (-1 | FMR_USER_INVOCATION_BIT) is still -1).
The source then asserts lf_assert(index == -1, failure, E_MODULE, "No
counterpart module loaded..."), so it jumps to the failure label raising
E_MODULE exactly when a counterpart WAS found, and records identifier, the
index -1 and the selected device when none was. -/
def lf_bind (fld : Nat → Option Nat) (identifier : Nat)
    (selected : Option LfDevice) (m : LfModule) (st : Host) :
    Int × LfModule × Host :=
  let index : Int := match fld identifier with
    | none => -1
    | some n => Int.ofNat (n ||| FMR_USER_INVOCATION_BIT)
  if index = -1 then
    (0, ⟨identifier, index, selected⟩, st)
  else
    (-1, m, lf_error_raise st .eModule)

/-- C8: the bind assertion is inverted.  When the loader table DOES hold a
counterpart for the module name CRC (here at index 4), lf_bind raises
E_MODULE and fails, although the claim (and the assert message itself, "No
counterpart module loaded for bind") say this is the success case; and when
no counterpart exists, lf_bind returns success, recording index -1. -/
theorem lf_bind_inverted_eval :
    lf_bind (fun _ => some 4) 0xABCD (some ⟨true, false⟩) ⟨0, -1, none⟩ ⟨.eOK, []⟩
        = (-1, ⟨0, -1, none⟩, ⟨.eModule, []⟩)
    ∧ lf_bind (fun _ => none) 0xABCD (some ⟨true, false⟩) ⟨0, -1, none⟩ ⟨.eOK, []⟩
        = (0, ⟨0xABCD, -1, some ⟨true, false⟩⟩, ⟨.eOK, []⟩) := by
  exact ⟨rfl, rfl⟩

/-- The function lf_push (host side): after the pointer checks (note the
source raises E_NULL for a NULL source but falls through without returning)
and the zero-length early exit, it builds a push-class (5) packet whose call
is prefixed by the implicit (device pointer, length) arguments, pushes the
packet, pushes the raw payload, and finally pulls the result (return code of
lf_get_result again ignored; a NULL argument list from a failed fmr_args
would reach fmr_create_call as an empty list). -/
def lf_push (m : Option LfModule) (f : Nat) (source len : Nat)
    (params : List LfArg) (tp : Transport) (st : Host) : Int × Host :=
  match m with
  | none => (-1, lf_error_raise st .eNull)
  | some md =>
    let st := if source = 0 then lf_error_raise st .eNull else st
    if source ≠ 0 ∧ len = 0 then (0, st)
    else
      match md.device with
      | none => (-1, lf_error_raise st .eNoDevice)
      | some dev =>
        let (pva, st) := fmr_ptr dev source st
        let margs := ((fmr_build [pva, fmr_va_pack 3 len]).toOption.getD []) ++ params
        let _call := fmr_create_call (if dev.is32bit then 4 else 2)
          (md.index % 256).toNat f 0 margs 0
        match lf_transfer tp.code1 5 st with
        | (e1, st) =>
          if e1 < 0 then (-1, st)
          else
            let st := { st with trace := st.trace ++ [.pushRaw len] }
            if tp.code2 < 0 then (-1, st)
            else
              match lf_get_result tp.code3 tp.reply st with
              | (_, st) => (0, st)

/-- The function lf_pull (host side): mirror of lf_push with the pull class
(7): packet push, then a raw pull into the destination, then the result pull. -/
def lf_pull (m : Option LfModule) (f : Nat) (destination len : Nat)
    (params : List LfArg) (tp : Transport) (st : Host) : Int × Host :=
  match m with
  | none => (-1, lf_error_raise st .eNull)
  | some md =>
    let st := if destination = 0 then lf_error_raise st .eNull else st
    if destination ≠ 0 ∧ len = 0 then (0, st)
    else
      match md.device with
      | none => (-1, lf_error_raise st .eNoDevice)
      | some dev =>
        let (pva, st) := fmr_ptr dev destination st
        let margs := ((fmr_build [pva, fmr_va_pack 3 len]).toOption.getD []) ++ params
        let _call := fmr_create_call (if dev.is32bit then 4 else 2)
          (md.index % 256).toNat f 0 margs 0
        match lf_transfer tp.code1 7 st with
        | (e1, st) =>
          if e1 < 0 then (-1, st)
          else
            let st := { st with trace := st.trace ++ [.pullRaw len] }
            if tp.code2 < 0 then (-1, st)
            else
              match lf_get_result tp.code3 tp.reply st with
              | (_, st) => (0, st)

/-- C9: in a successful nonzero-length bulk transaction, the transport sees
exactly one packet push, then the raw payload transfer, then the result pull,
in that order, for both directions: lf_pull pushes the pull-class packet,
pulls the raw bytes, then pulls the result; lf_push pushes the push-class
packet, pushes the raw bytes, then pulls the result.  The result is the last
transfer of the transaction. -/
theorem lf_push_pull_transfer_order (ident : Nat) (idx : Int) (dev : LfDevice)
    (f src dst len : Nat) (params : List LfArg) (tp : Transport) (st : Host)
    (hsrc : src ≠ 0) (hdst : dst ≠ 0) (hlen : len ≠ 0)
    (hc1 : 0 ≤ tp.code1) (hc2 : 0 ≤ tp.code2) (hc3 : 0 ≤ tp.code3) :
    (lf_pull (some ⟨ident, idx, some dev⟩) f dst len params tp st).2.trace
        = st.trace ++ [.pushPacket 7] ++ [.pullRaw len] ++ [.pullResult]
    ∧ (lf_push (some ⟨ident, idx, some dev⟩) f src len params tp st).2.trace
        = st.trace ++ [.pushPacket 5] ++ [.pushRaw len] ++ [.pullResult] := by
  constructor
  · unfold lf_pull lf_transfer lf_get_result lf_retrieve fmr_ptr lf_error_raise
    by_cases h32 : dev.is32bit <;>
      by_cases h16 : dev.is16bit <;>
        by_cases hre : tp.reply.error = Err.eOK <;>
          simp [h32, h16, hre, hdst, hlen, Int.not_lt.mpr hc1, Int.not_lt.mpr hc2,
            Int.not_lt.mpr hc3, List.append_assoc]
  · unfold lf_push lf_transfer lf_get_result lf_retrieve fmr_ptr lf_error_raise
    by_cases h32 : dev.is32bit <;>
      by_cases h16 : dev.is16bit <;>
        by_cases hre : tp.reply.error = Err.eOK <;>
          simp [h32, h16, hre, hsrc, hlen, Int.not_lt.mpr hc1, Int.not_lt.mpr hc2,
            Int.not_lt.mpr hc3, List.append_assoc]

/-- C9, witness: a concrete successful push and pull of 4 bytes. -/
theorem lf_push_pull_transfer_order_witness :
    (lf_pull (some ⟨1, 2, some ⟨true, false⟩⟩) 1 0x2000 4 [] ⟨0, 0, 0, ⟨0, .eOK⟩⟩
        ⟨.eOK, []⟩).2.trace
      = [.pushPacket 7] ++ [.pullRaw 4] ++ [.pullResult] := by
  have h := lf_push_pull_transfer_order 1 2 ⟨true, false⟩ 1 0x1000 0x2000 4 []
    ⟨0, 0, 0, ⟨0, .eOK⟩⟩ ⟨.eOK, []⟩ (by decide) (by decide) (by decide)
    (by decide) (by decide) (by decide)
  simpa using h.1

end Flipper
